import Mathlib

/-!
Formal model of the Palma wallet support service's knowledge retrieval and
response pipeline, following the Python sources in `query_lambda/app.py`,
`process_document_lambda/app.py` and `lambda/query_processor/app.py`.

Numbers that the Python code manipulates as floats are modelled as exact
rationals (ℚ) where the code only adds, multiplies and compares, and as real
numbers (ℝ) where the code takes square roots (similarity scoring and vector
normalisation).  External collaborators (the Bedrock embedding and generation
services, the DynamoDB / S3 stores, the system clock and UUID source) appear
as explicit parameters: the store contents are lists, a service is a function
argument, and each service outcome (success / failure) is an input.
-/

/-! ### SHA-256 (hashlib.sha256), used by `create_simple_embedding`

A direct implementation of FIPS 180-4 over byte lists (naturals < 256),
with 32-bit words as naturals reduced mod 2^32.  `sha256HexOfString` is
`hashlib.sha256(text.encode()).hexdigest()`.
-/

def w32 (n : ℕ) : ℕ := n % 4294967296

def rotr (x n : ℕ) : ℕ := w32 ((x >>> n) ||| (x <<< (32 - n)))

def not32 (x : ℕ) : ℕ := x ^^^ 4294967295

/-- The 64 round constants of FIPS 180-4, in decimal. -/
def sha256K : List ℕ :=
  [1116352408, 1899447441, 3049323471, 3921009573, 961987163, 1508970993,
   2453635748, 2870763221, 3624381080, 310598401, 607225278, 1426881987,
   1925078388, 2162078206, 2614888103, 3248222580, 3835390401, 4022224774,
   264347078, 604807628, 770255983, 1249150122, 1555081692, 1996064986,
   2554220882, 2821834349, 2952996808, 3210313671, 3336571891, 3584528711,
   113926993, 338241895, 666307205, 773529912, 1294757372, 1396182291,
   1695183700, 1986661051, 2177026350, 2456956037, 2730485921, 2820302411,
   3259730800, 3345764771, 3516065817, 3600352804, 4094571909, 275423344,
   430227734, 506948616, 659060556, 883997877, 958139571, 1322822218,
   1537002063, 1747873779, 1955562222, 2024104815, 2227730452, 2361852424,
   2428436474, 2756734187, 3204031479, 3329325298]

structure Sha256State where
  a : ℕ
  b : ℕ
  c : ℕ
  d : ℕ
  e : ℕ
  f : ℕ
  g : ℕ
  h : ℕ

/-- The initial hash value of FIPS 180-4, in decimal. -/
def sha256H0 : Sha256State :=
  ⟨1779033703, 3144134277, 1013904242, 2773480762,
   1359893119, 2600822924, 528734635, 1541459225⟩

def toWordsBE : List ℕ → List ℕ
  | b1 :: b2 :: b3 :: b4 :: rest =>
      (b1 * 16777216 + b2 * 65536 + b3 * 256 + b4) :: toWordsBE rest
  | _ => []

def extendSched (w : List ℕ) : List ℕ :=
  if _h : w.length < 64 then
    let i := w.length
    let x15 := w.getD (i - 15) 0
    let x2 := w.getD (i - 2) 0
    let s0 := rotr x15 7 ^^^ rotr x15 18 ^^^ (x15 >>> 3)
    let s1 := rotr x2 17 ^^^ rotr x2 19 ^^^ (x2 >>> 10)
    extendSched (w ++ [w32 (w.getD (i - 16) 0 + s0 + w.getD (i - 7) 0 + s1)])
  else w
termination_by 64 - w.length
decreasing_by simp [List.length_append]; omega

def compressRound (st : Sha256State) (kw : ℕ × ℕ) : Sha256State :=
  let S1 := rotr st.e 6 ^^^ rotr st.e 11 ^^^ rotr st.e 25
  let ch := (st.e &&& st.f) ^^^ (not32 st.e &&& st.g)
  let temp1 := w32 (st.h + S1 + ch + kw.1 + kw.2)
  let S0 := rotr st.a 2 ^^^ rotr st.a 13 ^^^ rotr st.a 22
  let maj := (st.a &&& st.b) ^^^ (st.a &&& st.c) ^^^ (st.b &&& st.c)
  let temp2 := w32 (S0 + maj)
  ⟨w32 (temp1 + temp2), st.a, st.b, st.c, w32 (st.d + temp1), st.e, st.f, st.g⟩

def compressBlock (st : Sha256State) (block : List ℕ) : Sha256State :=
  let w := extendSched (toWordsBE block)
  let r := (sha256K.zip w).foldl compressRound st
  ⟨w32 (st.a + r.a), w32 (st.b + r.b), w32 (st.c + r.c), w32 (st.d + r.d),
   w32 (st.e + r.e), w32 (st.f + r.f), w32 (st.g + r.g), w32 (st.h + r.h)⟩

def padMessage (msg : List ℕ) : List ℕ :=
  let L := msg.length
  let z := (64 + 56 - ((L + 1) % 64)) % 64
  msg ++ [128] ++ List.replicate z 0 ++
    [8 * L / 72057594037927936 % 256, 8 * L / 281474976710656 % 256,
     8 * L / 1099511627776 % 256, 8 * L / 4294967296 % 256,
     8 * L / 16777216 % 256, 8 * L / 65536 % 256, 8 * L / 256 % 256, 8 * L % 256]

def toBlocks (l : List ℕ) : List (List ℕ) :=
  if l = [] then [] else l.take 64 :: toBlocks (l.drop 64)
termination_by l.length
decreasing_by
  have hl : 0 < l.length := List.length_pos.mpr (by assumption)
  simp [List.length_drop]; omega

def wordBytesBE (w : ℕ) : List ℕ :=
  [w / 16777216 % 256, w / 65536 % 256, w / 256 % 256, w % 256]

def sha256Digest (msg : List ℕ) : List ℕ :=
  let fin := (toBlocks (padMessage msg)).foldl compressBlock sha256H0
  ([fin.a, fin.b, fin.c, fin.d, fin.e, fin.f, fin.g, fin.h]).flatMap wordBytesBE

def utf8Char (c : Char) : List ℕ :=
  let n := c.toNat
  if n < 128 then [n]
  else if n < 2048 then [192 + n / 64, 128 + n % 64]
  else if n < 65536 then [224 + n / 4096, 128 + n / 64 % 64, 128 + n % 64]
  else [240 + n / 262144, 128 + n / 4096 % 64, 128 + n / 64 % 64, 128 + n % 64]

def utf8Encode (s : String) : List ℕ := s.data.flatMap utf8Char

def hexChar (n : ℕ) : Char := "0123456789abcdef".data.getD n '0'

def hexOfBytes (bs : List ℕ) : String :=
  ⟨bs.flatMap (fun b => [hexChar (b / 16), hexChar (b % 16)])⟩

def sha256HexOfString (s : String) : String := hexOfBytes (sha256Digest (utf8Encode s))

/-! ### Fallback embedding: `create_simple_embedding` (both lambda sources)

The Python walks the 64-character hexdigest two characters at a time,
parses each pair with `int(hex_pair, 16)` (recovering one digest byte,
0..255), maps it through `value / 255.0` then `value * 2 - 1`, re-digests
`original_hash + str(len(values))` while fewer than `dimension` samples
exist, truncates to exactly `dimension` values and L2-normalises.
-/

def hexDigitVal (c : Char) : ℕ :=
  if c = '0' then 0 else if c = '1' then 1 else if c = '2' then 2 else if c = '3' then 3
  else if c = '4' then 4 else if c = '5' then 5 else if c = '6' then 6 else if c = '7' then 7
  else if c = '8' then 8 else if c = '9' then 9 else if c = 'a' then 10 else if c = 'b' then 11
  else if c = 'c' then 12 else if c = 'd' then 13 else if c = 'e' then 14 else if c = 'f' then 15
  else 0

def hexPairVals : List Char → List ℕ
  | c1 :: c2 :: rest => (hexDigitVal c1 * 16 + hexDigitVal c2) :: hexPairVals rest
  | _ => []

def digestVals (hexStr : String) : List ℚ :=
  (hexPairVals hexStr.data).map (fun k : ℕ => ((k : ℚ) / 255) * 2 - 1)

theorem hexPairVals_hexOfBytes (bs : List ℕ) :
    hexPairVals (hexOfBytes bs).data
      = bs.map (fun b => hexDigitVal (hexChar (b / 16)) * 16 + hexDigitVal (hexChar (b % 16))) := by
  show hexPairVals (bs.flatMap (fun b => [hexChar (b / 16), hexChar (b % 16)])) = _
  induction bs with
  | nil => rfl
  | cons b rest ih => simpa [hexPairVals] using ih

theorem sha256Digest_length (msg : List ℕ) : (sha256Digest msg).length = 32 := by
  simp [sha256Digest, wordBytesBE]

theorem digestVals_sha256_length (s : String) :
    (digestVals (sha256HexOfString s)).length = 32 := by
  have h1 := hexPairVals_hexOfBytes (sha256Digest (utf8Encode s))
  simp only [digestVals, sha256HexOfString]
  rw [h1, List.length_map, List.length_map, sha256Digest_length]

def csePad (originalHash : String) (dimension : ℕ) (acc : List ℚ) : List ℚ :=
  if _h : acc.length < dimension then
    let hh := sha256HexOfString (originalHash ++ toString acc.length)
    csePad originalHash dimension (acc ++ (digestVals hh).take (dimension - acc.length))
  else acc
termination_by dimension - acc.length
decreasing_by
  have h32 := digestVals_sha256_length (originalHash ++ toString acc.length)
  simp [List.length_append, List.length_take, h32]
  omega

def create_simple_embedding_raw (text : String) (dimension : ℕ) : List ℚ :=
  let hashHex := sha256HexOfString text
  (csePad hashHex dimension ((digestVals hashHex).take dimension)).take dimension

def sumSqQ (l : List ℚ) : ℚ := (l.map (fun v => v * v)).sum

noncomputable def create_simple_embedding (text : String) (dimension : ℕ := 1536) : List ℝ :=
  let values := create_simple_embedding_raw text dimension
  let norm : ℝ := Real.sqrt ((sumSqQ values : ℚ) : ℝ)
  values.map (fun v : ℚ => (v : ℝ) / norm)

/-- L2 norm of a real vector, as `math.sqrt(sum(v**2 for v in values))`. -/
noncomputable def l2normR (l : List ℝ) : ℝ := Real.sqrt ((l.map (fun v => v * v)).sum)

theorem hexDigitVal_hexChar_le (m : ℕ) : hexDigitVal (hexChar m) ≤ 15 := by
  by_cases hm : m < 16
  · interval_cases m <;> decide
  · have h0 : hexChar m = '0' := by
      apply List.getD_eq_default
      simp only [not_lt] at hm
      calc "0123456789abcdef".data.length = 16 := by decide
        _ ≤ m := hm
    rw [h0]; decide

theorem mem_digestVals_hex (bs : List ℕ) (x : ℚ) (hx : x ∈ digestVals (hexOfBytes bs)) :
    ∃ k : ℕ, k ≤ 255 ∧ x = ((k : ℚ) / 255) * 2 - 1 := by
  simp only [digestVals, hexPairVals_hexOfBytes] at hx
  rcases List.mem_map.mp hx with ⟨k, hk, rfl⟩
  rcases List.mem_map.mp hk with ⟨b, _, rfl⟩
  refine ⟨_, ?_, rfl⟩
  have h1 := hexDigitVal_hexChar_le (b / 16)
  have h2 := hexDigitVal_hexChar_le (b % 16)
  omega

theorem mem_digestVals (s : String) (x : ℚ) (hx : x ∈ digestVals (sha256HexOfString s)) :
    ∃ k : ℕ, k ≤ 255 ∧ x = ((k : ℚ) / 255) * 2 - 1 :=
  mem_digestVals_hex _ x hx

theorem csePad_length (o : String) (D : ℕ) (acc : List ℚ) :
    acc.length ≤ D → (csePad o D acc).length = D := by
  induction acc using csePad.induct o D with
  | case1 acc hlt hh ih =>
      intro _
      rw [csePad, dif_pos hlt]
      apply ih
      have h32 := digestVals_sha256_length (o ++ toString acc.length)
      simp [List.length_append, List.length_take, h32]
      omega
  | case2 acc hge =>
      intro h
      rw [csePad, dif_neg hge]
      omega

theorem mem_csePad (o : String) (D : ℕ) (acc : List ℚ) (x : ℚ) :
    x ∈ csePad o D acc → x ∈ acc ∨ ∃ s, x ∈ digestVals (sha256HexOfString s) := by
  induction acc using csePad.induct o D with
  | case1 acc hlt hh ih =>
      intro hx
      rw [csePad, dif_pos hlt] at hx
      rcases ih hx with h | h
      · rcases List.mem_append.mp h with h | h
        · exact Or.inl h
        · exact Or.inr ⟨_, List.mem_of_mem_take h⟩
      · exact Or.inr h
  | case2 acc hge =>
      intro hx
      rw [csePad, dif_neg hge] at hx
      exact Or.inl hx

theorem create_simple_embedding_raw_length (t : String) (D : ℕ) :
    (create_simple_embedding_raw t D).length = D := by
  have h1 : ((digestVals (sha256HexOfString t)).take D).length ≤ D := by
    simp [List.length_take]
  have h2 := csePad_length (sha256HexOfString t) D _ h1
  simp [create_simple_embedding_raw, List.length_take, h2]

theorem mem_create_simple_embedding_raw (t : String) (D : ℕ) (x : ℚ)
    (hx : x ∈ create_simple_embedding_raw t D) :
    ∃ k : ℕ, k ≤ 255 ∧ x = ((k : ℚ) / 255) * 2 - 1 := by
  have hx' := List.mem_of_mem_take hx
  rcases mem_csePad _ _ _ _ hx' with h | ⟨s, h⟩
  · exact mem_digestVals _ _ (List.mem_of_mem_take h)
  · exact mem_digestVals _ _ h

theorem sample_ne_zero (k : ℕ) (hk : k ≤ 255) : ((k : ℚ) / 255) * 2 - 1 ≠ 0 := by
  intro h
  have h2 : (k : ℚ) * 2 = 255 := by
    field_simp at h
    linarith
  have h3 : (k * 2 : ℕ) = 255 := by exact_mod_cast h2
  omega

theorem sumSqQ_nonneg (l : List ℚ) : 0 ≤ sumSqQ l := by
  apply List.sum_nonneg
  intro x hx
  rcases List.mem_map.mp hx with ⟨v, _, rfl⟩
  exact mul_self_nonneg v

theorem sumSqQ_pos (l : List ℚ) (hne : l ≠ []) (h : ∀ x ∈ l, x ≠ 0) : 0 < sumSqQ l := by
  cases l with
  | nil => exact absurd rfl hne
  | cons x xs =>
      have hx : x ≠ 0 := h x (List.mem_cons_self x xs)
      have h1 : 0 < x * x := mul_self_pos.mpr hx
      have h2 : 0 ≤ sumSqQ xs := sumSqQ_nonneg xs
      simp only [sumSqQ, List.map_cons, List.sum_cons]
      have : sumSqQ xs = (xs.map (fun v => v * v)).sum := rfl
      linarith [this ▸ h2]

/-- C10: every pre-normalisation component of the fallback embedding equals
`v/255*2-1` for an integer `v` in `0..255` and is never zero, so for any
positive dimension the sum of squares fed to the final division is strictly
positive: `create_simple_embedding` never divides by zero and returns totally. -/
theorem C10_normalization_division_safe (t : String) (D : ℕ) (hD : 0 < D) :
    (∀ x ∈ create_simple_embedding_raw t D,
        (∃ k : ℕ, k ≤ 255 ∧ x = ((k : ℚ) / 255) * 2 - 1) ∧ x ≠ 0) ∧
    0 < sumSqQ (create_simple_embedding_raw t D) := by
  have hmem : ∀ x ∈ create_simple_embedding_raw t D,
      (∃ k : ℕ, k ≤ 255 ∧ x = ((k : ℚ) / 255) * 2 - 1) ∧ x ≠ 0 := by
    intro x hx
    rcases mem_create_simple_embedding_raw t D x hx with ⟨k, hk, rfl⟩
    exact ⟨⟨k, hk, rfl⟩, sample_ne_zero k hk⟩
  refine ⟨hmem, sumSqQ_pos _ ?_ (fun x hx => (hmem x hx).2)⟩
  intro hnil
  have hlen := create_simple_embedding_raw_length t D
  rw [hnil] at hlen
  simp only [List.length_nil] at hlen
  omega

/-- Witness for C10 at the concrete input `t = "abc"`, `D = 5`. -/
theorem C10_witness :
    0 < 5 ∧
    ((∀ x ∈ create_simple_embedding_raw "abc" 5,
        (∃ k : ℕ, k ≤ 255 ∧ x = ((k : ℚ) / 255) * 2 - 1) ∧ x ≠ 0) ∧
      0 < sumSqQ (create_simple_embedding_raw "abc" 5)) :=
  ⟨by norm_num, C10_normalization_division_safe "abc" 5 (by norm_num)⟩

theorem sumSq_map_div (l : List ℚ) (c : ℝ) :
    ((l.map (fun v : ℚ => (v : ℝ) / c)).map (fun v => v * v)).sum
      = ((sumSqQ l : ℚ) : ℝ) / (c * c) := by
  induction l with
  | nil => simp [sumSqQ]
  | cons x xs ih =>
      simp only [List.map_cons, List.sum_cons, ih, sumSqQ]
      rw [div_mul_div_comm]
      push_cast
      rw [add_div]

theorem create_simple_embedding_length (t : String) (D : ℕ) :
    (create_simple_embedding t D).length = D := by
  simp [create_simple_embedding, create_simple_embedding_raw_length]

theorem create_simple_embedding_unit_norm (t : String) (D : ℕ) (hD : 0 < D) :
    l2normR (create_simple_embedding t D) = 1 := by
  have hpos := (C10_normalization_division_safe t D hD).2
  have hSpos : (0 : ℝ) < ((sumSqQ (create_simple_embedding_raw t D) : ℚ) : ℝ) := by
    exact_mod_cast hpos
  have hsqrt := Real.mul_self_sqrt hSpos.le
  simp only [l2normR, create_simple_embedding]
  rw [sumSq_map_div, hsqrt, div_self hSpos.ne.symm, Real.sqrt_one]

/-- C1: the fallback embedding is a pure function of the input text
(identical invocations yield identical vectors), and for any positive
dimension `D` its output has exactly `D` components and unit L2 norm. -/
theorem C1_fallback_deterministic_dim_unit_norm (t : String) (D : ℕ) (hD : 0 < D) :
    create_simple_embedding t D = create_simple_embedding t D ∧
    (create_simple_embedding t D).length = D ∧
    l2normR (create_simple_embedding t D) = 1 :=
  ⟨rfl, create_simple_embedding_length t D, create_simple_embedding_unit_norm t D hD⟩

/-- Witness for C1 at the concrete input `t = "hello"`, `D = 3`. -/
theorem C1_witness :
    0 < 3 ∧
    (create_simple_embedding "hello" 3 = create_simple_embedding "hello" 3 ∧
      (create_simple_embedding "hello" 3).length = 3 ∧
      l2normR (create_simple_embedding "hello" 3) = 1) :=
  ⟨by norm_num, C1_fallback_deterministic_dim_unit_norm "hello" 3 (by norm_num)⟩

/-! ### SimilarityScorer: `cosine_similarity` (query_lambda/app.py)

`sum(a*b for a, b in zip(...))` is `dotR`, `sum(a*a for a in v)` is `sumSqR`,
`math.sqrt` is `Real.sqrt`.  The unequal-length branch right-pads the shorter
vector with zeros (`padPair`); empty input or a zero magnitude returns `0`.
-/

noncomputable def sumSqR (l : List ℝ) : ℝ := (l.map (fun x => x * x)).sum

noncomputable def dotR (a b : List ℝ) : ℝ := ((a.zip b).map (fun q => q.1 * q.2)).sum

def padPair (a b : List ℝ) : List ℝ × List ℝ :=
  if a.length ≠ b.length then
    if a.length < b.length then (a ++ List.replicate (b.length - a.length) 0, b)
    else (a, b ++ List.replicate (a.length - b.length) 0)
  else (a, b)

open Classical in
noncomputable def cosine_similarity (vec_a vec_b : List ℝ) : ℝ :=
  if vec_a = [] ∨ vec_b = [] then 0
  else
    let p := padPair vec_a vec_b
    if Real.sqrt (sumSqR p.1) = 0 ∨ Real.sqrt (sumSqR p.2) = 0 then 0
    else dotR p.1 p.2 / (Real.sqrt (sumSqR p.1) * Real.sqrt (sumSqR p.2))

theorem dotR_comm (a : List ℝ) : ∀ b, dotR a b = dotR b a := by
  induction a with
  | nil => intro b; cases b <;> rfl
  | cons x xs ih =>
      intro b
      cases b with
      | nil => rfl
      | cons y ys =>
          simp only [dotR, List.zip_cons_cons, List.map_cons, List.sum_cons]
          have := ih ys
          simp only [dotR] at this
          rw [this, mul_comm]

theorem padPair_swap (a b : List ℝ) :
    padPair b a = ((padPair a b).2, (padPair a b).1) := by
  unfold padPair
  split_ifs <;> first | rfl | (exfalso; omega)

theorem sumSqR_append (x y : List ℝ) : sumSqR (x ++ y) = sumSqR x + sumSqR y := by
  simp [sumSqR]

theorem sumSqR_replicate_zero (n : ℕ) : sumSqR (List.replicate n (0 : ℝ)) = 0 := by
  simp [sumSqR, List.map_replicate]

theorem cosine_similarity_comm (a b : List ℝ) :
    cosine_similarity a b = cosine_similarity b a := by
  unfold cosine_similarity
  rw [padPair_swap a b]
  by_cases h1 : a = [] ∨ b = []
  · rw [if_pos h1, if_pos (or_comm.mp h1)]
  · rw [if_neg h1, if_neg (fun h => h1 (or_comm.mp h))]
    simp only []
    split_ifs <;> first | rfl | tauto | rw [dotR_comm, mul_comm]

theorem cosine_similarity_zero_left (a b : List ℝ) (h : sumSqR a = 0) :
    cosine_similarity a b = 0 := by
  unfold cosine_similarity
  by_cases h1 : a = [] ∨ b = []
  · rw [if_pos h1]
  · rw [if_neg h1]
    simp only []
    have hp1 : sumSqR (padPair a b).1 = 0 := by
      unfold padPair
      split_ifs
      · simp only []
        rw [sumSqR_append, sumSqR_replicate_zero, h, add_zero]
      · exact h
      · exact h
    rw [if_pos (Or.inl (by rw [hp1, Real.sqrt_zero]))]

/-- C6: cosine similarity is symmetric for every pair of vectors (including
pairs of unequal length, the shorter being right-padded with zeros), and
whenever either vector has zero squared norm — which covers the empty
vector — the result is `0`: the guarded division is never reached. -/
theorem C6_cosine_similarity_symmetric_and_zero_safe :
    (∀ a b : List ℝ, cosine_similarity a b = cosine_similarity b a) ∧
    (∀ a b : List ℝ, sumSqR a = 0 → cosine_similarity a b = 0) ∧
    (∀ a b : List ℝ, sumSqR b = 0 → cosine_similarity a b = 0) :=
  ⟨cosine_similarity_comm, cosine_similarity_zero_left,
    fun a b h => (cosine_similarity_comm a b).trans (cosine_similarity_zero_left b a h)⟩

/-! ### SemanticMatcher: `semantic_search_faq_table` and `search_embeddings_s3`

A stored FAQ row / S3 snapshot entry is a `FaqItem`; absent dict keys are
modelled as `""` / `[]` defaults exactly as `item.get(k, default)` produces
them, and the optional `embedding` attribute as an `Option`.  `if not
embedding: continue` skips both a missing and an empty embedding.  Python's
stable `list.sort(key=..., reverse=True)` is `List.mergeSort` with the
(classically decided) descending comparison.  The environment defaults are
`SIMILARITY_THRESHOLD = 0.6` and `MAX_RESULTS = 3`.
-/

structure FaqItem where
  id : String
  question : String
  answer : String
  keywords : List String
  embedding : Option (List ℝ)

structure Scored where
  item : FaqItem
  similarity : ℝ

noncomputable def SIMILARITY_THRESHOLD : ℝ := 0.6

def MAX_RESULTS : ℕ := 3

open Classical in
noncomputable def semanticCandidates (query_embedding : List ℝ) (items : List FaqItem) :
    List Scored :=
  items.filterMap (fun item =>
    match item.embedding with
    | none => none
    | some emb =>
        if emb = [] then none
        else if SIMILARITY_THRESHOLD ≤ cosine_similarity query_embedding emb then
          some ⟨item, cosine_similarity query_embedding emb⟩
        else none)

open Classical in
noncomputable def simDescLe (x y : Scored) : Bool := decide (y.similarity ≤ x.similarity)

noncomputable def semantic_search_faq_table (query_embedding : List ℝ) (items : List FaqItem) :
    List Scored :=
  ((semanticCandidates query_embedding items).mergeSort simDescLe).take MAX_RESULTS

noncomputable def search_embeddings_s3 (query : String) (query_embedding : List ℝ)
    (snapshot : Option (List FaqItem)) : List Scored :=
  match snapshot with
  | none => []
  | some allEmbeddings =>
      ((semanticCandidates query_embedding allEmbeddings).mergeSort simDescLe).take MAX_RESULTS

theorem simDescLe_trans (a b c : Scored) (hab : simDescLe a b = true)
    (hbc : simDescLe b c = true) : simDescLe a c = true := by
  simp only [simDescLe, decide_eq_true_eq] at *
  exact le_trans hbc hab

theorem simDescLe_total (a b : Scored) : (simDescLe a b || simDescLe b a) = true := by
  simp only [simDescLe, Bool.or_eq_true, decide_eq_true_eq]
  exact le_total b.similarity a.similarity

theorem mem_semanticCandidates_of_threshold (q : List ℝ) (items : List FaqItem)
    (item : FaqItem) (hitem : item ∈ items) (emb : List ℝ) (hemb : item.embedding = some emb)
    (hne : emb ≠ []) (hth : SIMILARITY_THRESHOLD ≤ cosine_similarity q emb) :
    (⟨item, cosine_similarity q emb⟩ : Scored) ∈ semanticCandidates q items := by
  apply List.mem_filterMap.mpr
  refine ⟨item, hitem, ?_⟩
  rw [hemb]
  simp only [if_neg hne, if_pos hth]

theorem semanticCandidates_sound (q : List ℝ) (items : List FaqItem) (sc : Scored)
    (hsc : sc ∈ semanticCandidates q items) :
    ∃ item ∈ items, ∃ emb, item.embedding = some emb ∧ emb ≠ [] ∧
      sc.item = item ∧ sc.similarity = cosine_similarity q emb ∧
      SIMILARITY_THRESHOLD ≤ sc.similarity := by
  rcases List.mem_filterMap.mp hsc with ⟨item, hitem, hf⟩
  refine ⟨item, hitem, ?_⟩
  cases hemb : item.embedding with
  | none => rw [hemb] at hf; exact absurd hf (by simp)
  | some emb =>
      rw [hemb] at hf
      dsimp only [] at hf
      by_cases hne : emb = []
      · rw [if_pos hne] at hf; exact absurd hf (by simp)
      · rw [if_neg hne] at hf
        by_cases hth : SIMILARITY_THRESHOLD ≤ cosine_similarity q emb
        · rw [if_pos hth] at hf
          have heq := Option.some.inj hf
          refine ⟨emb, rfl, hne, ?_, ?_, ?_⟩
          · rw [← heq]
          · rw [← heq]
          · rw [← heq]; exact hth
        · rw [if_neg hth] at hf; exact absurd hf (by simp)

/-- C4: for every query embedding and candidate list, the semantic searcher
admits exactly the candidates that carry a (nonempty) embedding whose cosine
similarity reaches the threshold — the comparison is `similarity >= threshold`,
so a candidate at exactly the threshold qualifies and one below it does not —
and its output is sorted by similarity descending and truncated to at most
`MAX_RESULTS` results. -/
theorem C4_semantic_search_threshold_inclusive_sorted_capped (q : List ℝ)
    (items : List FaqItem) :
    (∀ item ∈ items, ∀ emb, item.embedding = some emb → emb ≠ [] →
        SIMILARITY_THRESHOLD ≤ cosine_similarity q emb →
        (⟨item, cosine_similarity q emb⟩ : Scored) ∈ semanticCandidates q items) ∧
    (∀ sc ∈ semantic_search_faq_table q items,
        ∃ item ∈ items, ∃ emb, item.embedding = some emb ∧ emb ≠ [] ∧
          sc.item = item ∧ sc.similarity = cosine_similarity q emb ∧
          SIMILARITY_THRESHOLD ≤ sc.similarity) ∧
    List.Sorted (fun x y : Scored => y.similarity ≤ x.similarity)
      (semantic_search_faq_table q items) ∧
    (semantic_search_faq_table q items).length ≤ MAX_RESULTS := by
  refine ⟨fun item hi emb he hne hth =>
      mem_semanticCandidates_of_threshold q items item hi emb he hne hth, ?_, ?_, ?_⟩
  · intro sc hsc
    have h1 : sc ∈ (semanticCandidates q items).mergeSort simDescLe :=
      List.mem_of_mem_take hsc
    have h2 : sc ∈ semanticCandidates q items :=
      (List.mergeSort_perm (semanticCandidates q items) simDescLe).mem_iff.mp h1
    exact semanticCandidates_sound q items sc h2
  · have hp : List.Pairwise (fun a b => simDescLe a b = true)
        ((semanticCandidates q items).mergeSort simDescLe) :=
      List.sorted_mergeSort simDescLe_trans simDescLe_total _
    have hp2 : List.Pairwise (fun x y : Scored => y.similarity ≤ x.similarity)
        ((semanticCandidates q items).mergeSort simDescLe) := by
      refine hp.imp ?_
      intro a b h
      simpa [simDescLe] using h
    exact hp2.sublist (List.take_sublist _ _)
  · simpa [semantic_search_faq_table] using List.length_take_le MAX_RESULTS _

/-! ### LexicalMatcher: `search_faq_table` (query_lambda/app.py)

String helpers mirror the Python operations on ASCII text: `lowerStr` is
`str.lower`, `strIn needle hay` is `needle in hay` (substring test, true for
the empty needle), `pyWords` is `str.split()` (split on whitespace runs,
no empty words).  Python `set` arithmetic on words is modelled by
deduplicated lists, whose lengths equal the set cardinalities.  The
paginated table scan is modelled as the full item list; the `except`
wrapper around the scan (store failure → `[]`) is a store concern outside
the matcher's logic.
-/

def lowerStr (s : String) : String := ⟨s.data.map Char.toLower⟩

def leadsWith : List Char → List Char → Bool
  | [], _ => true
  | _ :: _, [] => false
  | a :: as, b :: bs => a == b && leadsWith as bs

def containsSeq (needle hay : List Char) : Bool :=
  leadsWith needle hay ||
    match hay with
    | [] => false
    | _ :: t => containsSeq needle t

def strIn (needle hay : String) : Bool := containsSeq needle.data hay.data

def wordsAux : List Char → List Char → List String
  | [], cur => if cur.isEmpty then [] else [⟨cur.reverse⟩]
  | c :: rest, cur =>
      if c.isWhitespace then
        if cur.isEmpty then wordsAux rest [] else ⟨cur.reverse⟩ :: wordsAux rest []
      else wordsAux rest (c :: cur)

def pyWords (s : String) : List String := wordsAux s.data []

def action_words : List String :=
  ["send", "receive", "buy", "sell", "swap", "backup", "restore", "create", "secure",
   "transfer", "exchange", "convert"]

def stop_words : List String :=
  ["i", "do", "how", "what", "the", "a", "an", "is", "are", "with", "wallet", "palma"]

inductive MatchType where
  | action_match
  | word_match
  | keyword_only
deriving DecidableEq

structure LexEntry where
  item : FaqItem
  score : ℚ
  mtype : Option MatchType

def queryActions (query_lower : String) : List String :=
  action_words.filter (fun w => strIn w query_lower)

def meaningfulCommonCount (query_lower question : String) : ℕ :=
  (((pyWords query_lower).dedup.filter (fun w => (pyWords question).contains w)).filter
    (fun w => !stop_words.contains w)).length

def itemScoreType (query_lower : String) (item : FaqItem) : ℚ × Option MatchType :=
  let question := lowerStr item.question
  let nA := (queryActions query_lower).countP (fun a => strIn a question)
  let s1 : ℚ := 3 * nA
  let t1 : Option MatchType := if 0 < nA then some .action_match else none
  let mc := meaningfulCommonCount query_lower question
  let s2 : ℚ := if 2 ≤ mc then s1 + mc else s1
  let t2 : Option MatchType := if 2 ≤ mc ∧ t1 = none then some .word_match else t1
  let kc := (item.keywords.map lowerStr).countP
    (fun k => strIn k query_lower && !stop_words.contains k)
  if 0 < kc ∧ s2 = 0 then (s2 + (kc : ℚ) * 0.5, some .keyword_only) else (s2, t2)

def exact_matches (query : String) (items : List FaqItem) : List FaqItem :=
  items.filter (fun item => lowerStr query == lowerStr item.question)

def nonExactItems (query : String) (items : List FaqItem) : List FaqItem :=
  items.filter (fun item => !(lowerStr query == lowerStr item.question))

def partial_matches (query : String) (items : List FaqItem) : List LexEntry :=
  (nonExactItems query items).filterMap (fun item =>
    let st := itemScoreType (lowerStr query) item
    if 3 ≤ st.1 then some ⟨item, st.1, st.2⟩ else none)

def keyword_matches (query : String) (items : List FaqItem) : List LexEntry :=
  (nonExactItems query items).filterMap (fun item =>
    let st := itemScoreType (lowerStr query) item
    if ¬ 3 ≤ st.1 ∧ 0 < st.1 ∧ st.2 = some .keyword_only then some ⟨item, st.1, st.2⟩
    else none)

def sortLexDesc (l : List LexEntry) : List LexEntry :=
  l.mergeSort (fun x y => decide (y.score ≤ x.score))

def search_faq_table (query : String) (items : List FaqItem) : List FaqItem :=
  if (exact_matches query items).isEmpty then
    if (partial_matches query items).isEmpty then
      match sortLexDesc (keyword_matches query items) with
      | [] => []
      | k :: _ => [k.item]
    else (sortLexDesc (partial_matches query items)).map (fun e => e.item)
  else exact_matches query items

theorem C3_exact_matches_nonempty_isEmpty_false (query : String) (items : List FaqItem)
    (h : ∃ item ∈ items, lowerStr query = lowerStr item.question) :
    (exact_matches query items).isEmpty = false := by
  obtain ⟨it, hit, heq⟩ := h
  have hmem : it ∈ exact_matches query items :=
    List.mem_filter.mpr ⟨hit, by simp [heq]⟩
  cases hx : exact_matches query items with
  | nil => rw [hx] at hmem; simp at hmem
  | cons a l => rfl

/-- C3: when at least one stored chunk's question equals the query
case-insensitively, the lexical matcher returns exactly the chunks whose
lowered question equals the lowered query — all of them, in scan order, and
nothing else — so no partial- or keyword-tier chunk appears in the result. -/
theorem C3_exact_match_tier_returns_all_exact (query : String) (items : List FaqItem)
    (h : ∃ item ∈ items, lowerStr query = lowerStr item.question) :
    search_faq_table query items
      = items.filter (fun item => lowerStr query == lowerStr item.question) := by
  have hne := C3_exact_matches_nonempty_isEmpty_false query items h
  unfold search_faq_table
  rw [hne]
  simp [exact_matches]

/-- Witness for C3 on the knowledge-base example: two stored chunks, the
first an exact (case-insensitive) match of the query. -/
theorem C3_witness :
    (∃ item ∈ [(⟨"1", "How do I send crypto?", "Answer A", [], none⟩ : FaqItem),
        ⟨"2", "How do I backup my wallet?", "Answer B", [], none⟩],
      lowerStr "how do i send crypto?" = lowerStr item.question) ∧
    search_faq_table "how do i send crypto?"
        [(⟨"1", "How do I send crypto?", "Answer A", [], none⟩ : FaqItem),
          ⟨"2", "How do I backup my wallet?", "Answer B", [], none⟩]
      = ([(⟨"1", "How do I send crypto?", "Answer A", [], none⟩ : FaqItem),
          ⟨"2", "How do I backup my wallet?", "Answer B", [], none⟩]).filter
          (fun item => lowerStr "how do i send crypto?" == lowerStr item.question) :=
  ⟨⟨⟨"1", "How do I send crypto?", "Answer A", [], none⟩, by simp, by decide⟩,
    C3_exact_match_tier_returns_all_exact _ _
      ⟨⟨"1", "How do I send crypto?", "Answer A", [], none⟩, by simp, by decide⟩⟩

theorem sortLexDesc_head_max (l : List LexEntry) (k : LexEntry) (rest : List LexEntry)
    (h : sortLexDesc l = k :: rest) :
    k ∈ l ∧ ∀ e ∈ l, e.score ≤ k.score := by
  have hperm : (sortLexDesc l).Perm l :=
    List.mergeSort_perm l (fun x y => decide (y.score ≤ x.score))
  constructor
  · exact hperm.mem_iff.mp (by rw [h]; exact List.mem_cons_self _ _)
  · intro e he
    have he' : e ∈ sortLexDesc l := hperm.mem_iff.mpr he
    rw [h] at he'
    rcases List.mem_cons.mp he' with rfl | hr
    · exact le_refl _
    · have hp : List.Pairwise (fun a b => (decide (b.score ≤ a.score) : Bool) = true)
          (sortLexDesc l) := by
        apply List.sorted_mergeSort
        · intro a b c hab hbc
          simp only [decide_eq_true_eq] at *
          exact le_trans hbc hab
        · intro a b
          simp only [Bool.or_eq_true, decide_eq_true_eq]
          exact le_total _ _
      rw [h] at hp
      have := (List.pairwise_cons.mp hp).1 e hr
      simpa using this

/-- C8: with no exact match and no partial match (score ≥ 3), the lexical
matcher returns at most one chunk — the empty list when no keyword-only chunk
matched, else exactly the item of a highest-scoring keyword-only entry. -/
theorem C8_keyword_tier_returns_at_most_one (query : String) (items : List FaqItem)
    (hex : exact_matches query items = []) (hpm : partial_matches query items = []) :
    (search_faq_table query items).length ≤ 1 ∧
    (keyword_matches query items = [] → search_faq_table query items = []) ∧
    (keyword_matches query items ≠ [] →
      ∃ best ∈ keyword_matches query items,
        search_faq_table query items = [best.item] ∧
        ∀ e ∈ keyword_matches query items, e.score ≤ best.score) := by
  have h1 : (exact_matches query items).isEmpty = true := by rw [hex]; rfl
  have h2 : (partial_matches query items).isEmpty = true := by rw [hpm]; rfl
  have hperm : (sortLexDesc (keyword_matches query items)).Perm (keyword_matches query items) :=
    List.mergeSort_perm _ _
  unfold search_faq_table
  rw [h1, h2]
  cases hs : sortLexDesc (keyword_matches query items) with
  | nil =>
      rw [hs] at hperm
      have hkm : keyword_matches query items = [] := hperm.symm.eq_nil
      simp only [if_pos rfl]
      exact ⟨by simp, fun _ => rfl, fun hne => absurd hkm hne⟩
  | cons k rest =>
      have hmax := sortLexDesc_head_max _ k rest hs
      simp only [if_pos rfl]
      refine ⟨by simp, ?_, ?_⟩
      · intro hkm
        rw [hkm] at hs
        simp [sortLexDesc, List.mergeSort_nil] at hs
      · intro _
        exact ⟨k, hmax.1, rfl, hmax.2⟩

/-- Witness for C8 at the concrete input: query `"anything"` against the
empty chunk store (no exact and no partial match). -/
theorem C8_witness :
    exact_matches "anything" [] = [] ∧
    partial_matches "anything" [] = [] ∧
    ((search_faq_table "anything" []).length ≤ 1 ∧
      (keyword_matches "anything" [] = [] → search_faq_table "anything" [] = []) ∧
      (keyword_matches "anything" [] ≠ [] →
        ∃ best ∈ keyword_matches "anything" [],
          search_faq_table "anything" [] = [best.item] ∧
          ∀ e ∈ keyword_matches "anything" [], e.score ≤ best.score)) :=
  ⟨rfl, rfl, C8_keyword_tier_returns_at_most_one "anything" [] rfl rfl⟩

/-! ### Lexical matcher of the `lambda/query_processor` variant

`search_faq_table` there scans only rows whose `id` begins with `"en_"`,
scores by substring containment (10 / 8), doubled meaningful-word overlap
and key-term hits (+3), and returns `exact[:3]`, else `high(≥8)` sorted
descending `[:3]`, else `medium(≥4)` sorted descending `[:1]`.  All scores
are integers.
-/

def stop_words_qp : List String :=
  ["what", "which", "does", "do", "the", "a", "an", "is", "are", "it", "how", "can", "i",
   "my", "to", "with", "for", "of", "in", "on", "at", "from", "by", "about", "palma", "wallet"]

def key_terms : List String :=
  ["cryptocurrency", "cryptocurrencies", "crypto", "support", "accept", "send", "receive",
   "transfer", "fee", "fees", "security", "backup", "restore", "create", "usdt", "usdc",
   "bitcoin", "ethereum"]

def qpMeaningful (s : String) : List String :=
  (pyWords s).dedup.filter (fun w => !stop_words_qp.contains w)

def qpItemScore (query_lower : String) (item : FaqItem) : ℕ :=
  let question := lowerStr item.question
  let s1 := if strIn query_lower question then 10
    else if strIn question query_lower then 8 else 0
  let common := (qpMeaningful query_lower).filter (fun w => (qpMeaningful question).contains w)
  let s2 := s1 + common.length * 2
  s2 + 3 * (key_terms.countP (fun t => strIn t query_lower && strIn t question))

def sortQpDesc (l : List (FaqItem × ℕ)) : List (FaqItem × ℕ) :=
  l.mergeSort (fun x y => decide (y.2 ≤ x.2))

def search_faq_table_qp (query : String) (items : List FaqItem) : List FaqItem :=
  let itemsEn := items.filter (fun item => leadsWith "en_".data item.id.data)
  if itemsEn.isEmpty then []
  else
    let ql := lowerStr query
    let exacts := itemsEn.filter (fun item => ql == lowerStr item.question)
    let nonex := itemsEn.filter (fun item => !(ql == lowerStr item.question))
    let high := nonex.filterMap (fun item =>
      let s := qpItemScore ql item
      if 8 ≤ s then some (item, s) else none)
    let med := nonex.filterMap (fun item =>
      let s := qpItemScore ql item
      if ¬ 8 ≤ s ∧ 4 ≤ s then some (item, s) else none)
    if exacts.isEmpty then
      if high.isEmpty then
        if med.isEmpty then []
        else ((sortQpDesc med).take 1).map Prod.fst
      else ((sortQpDesc high).take 3).map Prod.fst
    else exacts.take 3

/-! ### ResolutionPipeline: `query_knowledge_base` (both handler variants)

The request-scoped effects that the claims speak about are recorded in an
event trace: one `embedCall` per `get_embeddings` invocation, one
`primarySearch` / `secondarySearch` per semantic store scan, one `logPut`
per `put_item` attempt on the query-log table (`log_query` swallows a store
failure and yields `None`).  External collaborators live in `Env`: the FAQ
table rows, the latest S3 embeddings snapshot (`none` when the bucket holds
no file), the Bedrock embedding and generation services (`none` = raise),
the log store outcome and the generated query id.  Table provisioning
(`check_or_create_table`) and request-envelope parsing are store/transport
plumbing outside the modelled pipeline.
-/

inductive Ev where
  | embedCall (text : String) (result : List ℝ)
  | primarySearch (emb : List ℝ)
  | secondarySearch (emb : List ℝ)
  | logPut (ok : Bool)

structure Resp where
  statusCode : ℕ
  response : Option String
  source : Option String
  queryId : Option String
  numMatches : Option ℕ
  error : Option String

structure Env where
  faqItems : List FaqItem
  s3Snapshot : Option (List FaqItem)
  bedrockEmbed : String → Option (List ℝ)
  genAI : String → List Scored → Option String
  logOk : Bool
  qid : String

noncomputable def get_embeddings (env : Env) (text : String) : List ℝ :=
  match env.bedrockEmbed text with
  | some e => e
  | none => create_simple_embedding text

noncomputable def log_query (env : Env) (query response : String) (found_items : List Scored) :
    Option String × List Ev :=
  if env.logOk then (some env.qid, [Ev.logPut true]) else (none, [Ev.logPut false])

noncomputable def generate_ai_response (env : Env) (query : String)
    (context_items : List Scored) : String :=
  match env.genAI query context_items with
  | some text => text
  | none => "I'm sorry, I encountered an error while processing your question. Please try asking again or contact our support team for assistance."

def default_response : String :=
  "I don't have specific information about that in my knowledge base. I can help with questions about sending/receiving cryptocurrency, wallet security, transaction fees, and general Palma Wallet features. Would you like to know more about any of these topics?"

def resp400 : Resp :=
  { statusCode := 400, response := none, source := none, queryId := none, numMatches := none,
    error := some "Query parameter is required" }

noncomputable def semantic_flow (env : Env) (query : String) : Resp × List Ev :=
  let query_embedding := get_embeddings env query
  let primary := semantic_search_faq_table query_embedding env.faqItems
  let search_results :=
    if primary.isEmpty then search_embeddings_s3 query query_embedding env.s3Snapshot
    else primary
  let ev := [Ev.embedCall query query_embedding, Ev.primarySearch query_embedding]
      ++ (if primary.isEmpty then [Ev.secondarySearch query_embedding] else [])
  if search_results.isEmpty then
    let lq := log_query env query default_response []
    ({ statusCode := 200, response := some default_response,
       source := some "default_response", queryId := lq.1, numMatches := none, error := none },
      ev ++ lq.2)
  else
    let ai := generate_ai_response env query search_results
    let lq := log_query env query ai search_results
    ({ statusCode := 200, response := some ai, source := some "embedding_search",
       queryId := lq.1, numMatches := some search_results.length, error := none },
      ev ++ lq.2)

noncomputable def query_knowledge_base (env : Env) (query : String) : Resp × List Ev :=
  if query = "" then (resp400, [])
  else
    match search_faq_table query env.faqItems with
    | m :: _ =>
        let response_text := m.answer
        let lq := log_query env query response_text
          ((search_faq_table query env.faqItems).map (fun it => (⟨it, 1⟩ : Scored)))
        ({ statusCode := 200, response := some response_text,
           source := some "faq_direct_match", queryId := lq.1, numMatches := none, error := none },
          lq.2)
    | [] => semantic_flow env query

noncomputable def query_knowledge_base_qp (env : Env) (query : String) : Resp × List Ev :=
  if query = "" then (resp400, [])
  else
    match search_faq_table_qp query env.faqItems with
    | m :: _ =>
        ({ statusCode := 200, response := some m.answer,
           source := some "faq_direct_match", queryId := none, numMatches := none, error := none },
          [])
    | [] => semantic_flow env query

def isEmbedEv : Ev → Bool
  | .embedCall _ _ => true
  | _ => false

def isLogEv : Ev → Bool
  | .logPut _ => true
  | _ => false

def countEmbeds (tr : List Ev) : ℕ := tr.countP isEmbedEv

def countLogPuts (tr : List Ev) : ℕ := tr.countP isLogEv

theorem semantic_flow_trace (env : Env) (query : String) :
    (semantic_flow env query).2 =
      ([Ev.embedCall query (get_embeddings env query),
        Ev.primarySearch (get_embeddings env query)]
        ++ (if (semantic_search_faq_table (get_embeddings env query) env.faqItems).isEmpty
            then [Ev.secondarySearch (get_embeddings env query)] else [])) ++
      [Ev.logPut env.logOk] := by
  unfold semantic_flow log_query
  cases env.logOk <;> split_ifs <;> simp_all [apply_ite Prod.snd]

theorem countEmbeds_semantic_flow (env : Env) (query : String) :
    countEmbeds (semantic_flow env query).2 = 1 := by
  rw [semantic_flow_trace]
  by_cases h : (semantic_search_faq_table (get_embeddings env query) env.faqItems).isEmpty <;>
    simp [h, countEmbeds, isEmbedEv, List.countP_append, List.countP_cons]

theorem secondary_semantic_flow (env : Env) (query : String) (e : List ℝ)
    (he : Ev.secondarySearch e ∈ (semantic_flow env query).2) :
    e = get_embeddings env query ∧
    Ev.embedCall query e ∈ (semantic_flow env query).2 ∧
    semantic_search_faq_table e env.faqItems = [] := by
  rw [semantic_flow_trace] at he ⊢
  by_cases h : (semantic_search_faq_table (get_embeddings env query) env.faqItems).isEmpty
  · rw [if_pos h] at he ⊢
    simp only [List.mem_append, List.mem_cons, List.mem_singleton] at he
    have he' : e = get_embeddings env query := by
      rcases he with (h1 | h1 | h1) | h1 <;> simp_all
    subst he'
    exact ⟨rfl, by simp, List.isEmpty_iff.mp h⟩
  · rw [if_neg h] at he
    simp at he

/-- C5: within one query resolution the query is embedded at most once, and
every secondary-store (S3 snapshot) search event carries exactly the one
embedding produced by that single `get_embeddings` call and happens only
when the primary FAQ-table semantic search returned zero qualifying
results. -/
theorem C5_embed_once_secondary_only_on_primary_miss (env : Env) (query : String) :
    countEmbeds (query_knowledge_base env query).2 ≤ 1 ∧
    (∀ e, Ev.secondarySearch e ∈ (query_knowledge_base env query).2 →
      e = get_embeddings env query ∧
      Ev.embedCall query e ∈ (query_knowledge_base env query).2 ∧
      semantic_search_faq_table e env.faqItems = []) := by
  unfold query_knowledge_base
  by_cases hq : query = ""
  · rw [if_pos hq]
    exact ⟨by simp [countEmbeds], fun e he => by simp at he⟩
  · rw [if_neg hq]
    cases hm : search_faq_table query env.faqItems with
    | cons m rest =>
        dsimp only []
        constructor
        · unfold log_query
          rw [apply_ite Prod.snd]
          split <;> simp [countEmbeds, isEmbedEv]
        · intro e he
          unfold log_query at he
          rw [apply_ite Prod.snd] at he
          split at he <;> simp at he
    | nil =>
        exact ⟨le_of_eq (countEmbeds_semantic_flow env query),
          fun e he => secondary_semantic_flow env query e he⟩

def cexItem : FaqItem :=
  ⟨"en_1", "How do I send cryptocurrency?", "Open the app and tap Send.", [], none⟩

def cexEnv : Env :=
  { faqItems := [cexItem], s3Snapshot := none, bedrockEmbed := fun _ => none,
    genAI := fun _ _ => none, logOk := true, qid := "qid-0" }

/-- C2 counterexample: on a query with a lexical (exact) FAQ hit the handler
reports `source = "faq_direct_match"`, not `"lexical_match"` as the claim
states. -/
theorem C2_counterexample :
    (search_faq_table "how do i send cryptocurrency?" cexEnv.faqItems).isEmpty = false ∧
    (query_knowledge_base cexEnv "how do i send cryptocurrency?").1.source
      = some "faq_direct_match" ∧
    (query_knowledge_base cexEnv "how do i send cryptocurrency?").1.source
      ≠ some "lexical_match" := by
  refine ⟨rfl, rfl, ?_⟩
  rw [show (query_knowledge_base cexEnv "how do i send cryptocurrency?").1.source
      = some "faq_direct_match" from rfl]
  decide

/-- C2 (amended): in both handler variants, whenever the lexical matcher
returns a non-empty result the pipeline responds 200 with the first result's
answer verbatim, reports source `"faq_direct_match"` (the code's label for
the lexical tier), and performs no embedding call. -/
theorem C2_amended_lexical_hit_answer_source_no_embed :
    (∀ (env : Env) (query : String) (m : FaqItem) (rest : List FaqItem), query ≠ "" →
      search_faq_table query env.faqItems = m :: rest →
      (query_knowledge_base env query).1.statusCode = 200 ∧
      (query_knowledge_base env query).1.response = some m.answer ∧
      (query_knowledge_base env query).1.source = some "faq_direct_match" ∧
      countEmbeds (query_knowledge_base env query).2 = 0) ∧
    (∀ (env : Env) (query : String) (m : FaqItem) (rest : List FaqItem), query ≠ "" →
      search_faq_table_qp query env.faqItems = m :: rest →
      (query_knowledge_base_qp env query).1.statusCode = 200 ∧
      (query_knowledge_base_qp env query).1.response = some m.answer ∧
      (query_knowledge_base_qp env query).1.source = some "faq_direct_match" ∧
      countEmbeds (query_knowledge_base_qp env query).2 = 0) := by
  constructor
  · intro env query m rest hq hm
    unfold query_knowledge_base
    rw [if_neg hq, hm]
    dsimp only []
    refine ⟨rfl, rfl, rfl, ?_⟩
    unfold log_query
    rw [apply_ite Prod.snd]
    split <;> simp [countEmbeds, isEmbedEv]
  · intro env query m rest hq hm
    unfold query_knowledge_base_qp
    rw [if_neg hq, hm]
    dsimp only []
    exact ⟨rfl, rfl, rfl, by simp [countEmbeds]⟩

theorem semantic_flow_logOk_invariant (env : Env) (b : Bool) (query : String) :
    (semantic_flow { env with logOk := b } query).1.statusCode
        = (semantic_flow env query).1.statusCode ∧
    (semantic_flow { env with logOk := b } query).1.response
        = (semantic_flow env query).1.response ∧
    (semantic_flow { env with logOk := b } query).1.source
        = (semantic_flow env query).1.source ∧
    (semantic_flow { env with logOk := b } query).1.numMatches
        = (semantic_flow env query).1.numMatches ∧
    (semantic_flow { env with logOk := b } query).1.error
        = (semantic_flow env query).1.error := by
  refine ⟨?_, ?_, ?_, ?_, ?_⟩ <;>
  · unfold semantic_flow get_embeddings log_query
    dsimp only []
    split_ifs <;> rfl

theorem semantic_flow_queryId (env : Env) (query : String) :
    (semantic_flow env query).1.queryId
      = (if env.logOk = true then some env.qid else none) := by
  unfold semantic_flow log_query
  dsimp only []
  split_ifs <;> rfl

theorem countLogPuts_semantic_flow (env : Env) (query : String) :
    countLogPuts (semantic_flow env query).2 = 1 := by
  rw [semantic_flow_trace]
  by_cases h : (semantic_search_faq_table (get_embeddings env query) env.faqItems).isEmpty <;>
    simp [h, countLogPuts, isLogEv, List.countP_append, List.countP_cons]

/-- C9 counterexample: in the `query_processor` handler variant a lexical
(exact) FAQ hit resolves with status 200 while issuing zero query-log
writes, contradicting "every terminal resolution path writes exactly one
query-log record". -/
theorem C9_counterexample :
    (search_faq_table_qp "how do i send cryptocurrency?" cexEnv.faqItems).isEmpty = false ∧
    countLogPuts (query_knowledge_base_qp cexEnv "how do i send cryptocurrency?").2 = 0 ∧
    (query_knowledge_base_qp cexEnv "how do i send cryptocurrency?").1.statusCode = 200 :=
  ⟨rfl, rfl, rfl⟩

/-- C9 (amended): in the `query_lambda` handler every terminal resolution
path (lexical hit, semantic hit via either store, default fallback) issues
exactly one query-log write, and a log-write failure (`logOk = false`)
leaves the status, response text, source, match count and error field
unchanged — only the returned query id becomes `none` instead of the
generated id.  In the `query_processor` variant the lexical-hit path issues
no log write, while its non-lexical terminal paths issue exactly one. -/
theorem C9_amended_one_log_write_best_effort :
    (∀ (env : Env) (query : String), query ≠ "" →
      countLogPuts (query_knowledge_base env query).2 = 1) ∧
    (∀ (env : Env) (b : Bool) (query : String),
      (query_knowledge_base { env with logOk := b } query).1.statusCode
          = (query_knowledge_base env query).1.statusCode ∧
      (query_knowledge_base { env with logOk := b } query).1.response
          = (query_knowledge_base env query).1.response ∧
      (query_knowledge_base { env with logOk := b } query).1.source
          = (query_knowledge_base env query).1.source ∧
      (query_knowledge_base { env with logOk := b } query).1.numMatches
          = (query_knowledge_base env query).1.numMatches ∧
      (query_knowledge_base { env with logOk := b } query).1.error
          = (query_knowledge_base env query).1.error) ∧
    (∀ (env : Env) (query : String), query ≠ "" →
      (query_knowledge_base { env with logOk := false } query).1.queryId = none ∧
      (query_knowledge_base { env with logOk := true } query).1.queryId = some env.qid) ∧
    (∀ (env : Env) (query : String) (m : FaqItem) (rest : List FaqItem), query ≠ "" →
      search_faq_table_qp query env.faqItems = m :: rest →
      countLogPuts (query_knowledge_base_qp env query).2 = 0 ∧
      (query_knowledge_base_qp env query).1.statusCode = 200) ∧
    (∀ (env : Env) (query : String), query ≠ "" →
      search_faq_table_qp query env.faqItems = [] →
      countLogPuts (query_knowledge_base_qp env query).2 = 1) := by
  refine ⟨?_, ?_, ?_, ?_, ?_⟩
  · intro env query hq
    unfold query_knowledge_base
    rw [if_neg hq]
    cases hm : search_faq_table query env.faqItems with
    | cons m rest =>
        dsimp only []
        unfold log_query
        rw [apply_ite Prod.snd]
        split <;> simp [countLogPuts, isLogEv]
    | nil => exact countLogPuts_semantic_flow env query
  · intro env b query
    unfold query_knowledge_base
    by_cases hq : query = ""
    · rw [if_pos hq, if_pos hq]
      exact ⟨rfl, rfl, rfl, rfl, rfl⟩
    · rw [if_neg hq, if_neg hq]
      dsimp only []
      cases hm : search_faq_table query env.faqItems with
      | cons m rest => dsimp only []; exact ⟨rfl, rfl, rfl, rfl, rfl⟩
      | nil => exact semantic_flow_logOk_invariant env b query
  · intro env query hq
    constructor
    · unfold query_knowledge_base
      rw [if_neg hq]
      dsimp only []
      cases hm : search_faq_table query env.faqItems with
      | cons m rest => dsimp only []; simp [log_query]
      | nil => rw [semantic_flow_queryId]; rfl
    · unfold query_knowledge_base
      rw [if_neg hq]
      dsimp only []
      cases hm : search_faq_table query env.faqItems with
      | cons m rest => dsimp only []; simp [log_query]
      | nil => rw [semantic_flow_queryId]; rfl
  · intro env query m rest hq hm
    unfold query_knowledge_base_qp
    rw [if_neg hq, hm]
    dsimp only []
    exact ⟨by simp [countLogPuts], rfl⟩
  · intro env query hq hm
    unfold query_knowledge_base_qp
    rw [if_neg hq, hm]
    exact countLogPuts_semantic_flow env query

/-! ### Chunker: `chunk_document` (process_document_lambda/app.py)

A document is the parsed JSON structure: optional `metadata`
(`documentId`, `source`), optional `sections`, each section with optional
`sectionId` / `sectionTitle` and a `content` list of question/answer items
whose `id` may be absent.  `str(uuid.uuid4())` is determinised as a supply
`uuid : ℕ → String` consumed left to right, one index per item lacking an
`id`.  A document without a `sections` key yields `[]`.
-/

structure QAItem where
  id : Option String
  question : String
  answer : String
  keywords : List String

structure DocSection where
  sectionId : Option String
  sectionTitle : Option String
  content : List QAItem

structure DocMeta where
  documentId : Option String
  source : Option String

structure Document where
  metadata : Option DocMeta
  sections : Option (List DocSection)

structure Chunk where
  chunk_id : String
  text : String
  section_id : String
  section_title : String
  question : String
  answer : String
  keywords : List String
  source_document : String
  document_title : String

def docSourceDocument (doc : Document) : String :=
  match doc.metadata with
  | some md => md.documentId.getD "unknown"
  | none => "unknown"

def docTitle (doc : Document) : String :=
  match doc.metadata with
  | some md => md.source.getD "Palma Wallet Knowledge Base"
  | none => "Palma Wallet Knowledge Base"

def chunkOfItem (uuid : ℕ → String) (k : ℕ) (doc : Document) (sec : DocSection)
    (item : QAItem) : Chunk :=
  let section_title := sec.sectionTitle.getD "Untitled Section"
  { chunk_id := match item.id with | some i => i | none => uuid k,
    text := "Section: " ++ section_title ++ "\nQuestion: " ++ item.question
      ++ "\nAnswer: " ++ item.answer,
    section_id := sec.sectionId.getD "unknown",
    section_title := section_title,
    question := item.question,
    answer := item.answer,
    keywords := item.keywords,
    source_document := docSourceDocument doc,
    document_title := docTitle doc }

def chunkItems (uuid : ℕ → String) (doc : Document) (sec : DocSection) :
    List QAItem → ℕ → List Chunk × ℕ
  | [], k => ([], k)
  | item :: rest, k =>
      let k' := match item.id with | some _ => k | none => k + 1
      let r := chunkItems uuid doc sec rest k'
      (chunkOfItem uuid k doc sec item :: r.1, r.2)

def chunkSections (uuid : ℕ → String) (doc : Document) :
    List DocSection → ℕ → List Chunk × ℕ
  | [], k => ([], k)
  | sec :: rest, k =>
      let r1 := chunkItems uuid doc sec sec.content k
      let r2 := chunkSections uuid doc rest r1.2
      (r1.1 ++ r2.1, r2.2)

def chunk_document (uuid : ℕ → String) (content : Document) : List Chunk :=
  match content.sections with
  | none => []
  | some sections => (chunkSections uuid content sections 0).1

def sectionItemPairs (sections : List DocSection) : List (DocSection × QAItem) :=
  sections.flatMap (fun s => s.content.map (fun it => (s, it)))

def missingIdCount (ps : List (DocSection × QAItem)) : ℕ :=
  ps.countP (fun p => p.2.id.isNone)

def chunkSpecList (uuid : ℕ → String) (doc : Document) :
    List (DocSection × QAItem) → ℕ → List Chunk
  | [], _ => []
  | p :: rest, k =>
      chunkOfItem uuid k doc p.1 p.2 ::
        chunkSpecList uuid doc rest (match p.2.id with | some _ => k | none => k + 1)

theorem chunkItems_eq (uuid : ℕ → String) (doc : Document) (sec : DocSection) :
    ∀ (items : List QAItem) (k : ℕ),
      chunkItems uuid doc sec items k
        = (chunkSpecList uuid doc (items.map (fun it => (sec, it))) k,
           k + missingIdCount (items.map (fun it => (sec, it)))) := by
  intro items
  induction items with
  | nil => intro k; simp [chunkItems, chunkSpecList, missingIdCount]
  | cons item rest ih =>
      intro k
      simp only [chunkItems, List.map_cons, chunkSpecList, ih]
      cases hid : item.id <;>
        simp [missingIdCount, List.countP_cons, hid, Option.isNone] <;> omega

theorem chunkSpecList_append (uuid : ℕ → String) (doc : Document) :
    ∀ (ps qs : List (DocSection × QAItem)) (k : ℕ),
      chunkSpecList uuid doc (ps ++ qs) k
        = chunkSpecList uuid doc ps k ++ chunkSpecList uuid doc qs (k + missingIdCount ps) := by
  intro ps
  induction ps with
  | nil => intro qs k; simp [chunkSpecList, missingIdCount]
  | cons p rest ih =>
      intro qs k
      cases hid : p.2.id with
      | some i =>
          have hmc : missingIdCount (p :: rest) = missingIdCount rest := by
            simp [missingIdCount, List.countP_cons, hid]
          simp only [List.cons_append, chunkSpecList, List.append_eq, hid, ih, hmc]
      | none =>
          have hmc : missingIdCount (p :: rest) = missingIdCount rest + 1 := by
            simp [missingIdCount, List.countP_cons, hid]
          have hk : k + 1 + missingIdCount rest = k + (missingIdCount rest + 1) := by omega
          simp only [List.cons_append, chunkSpecList, List.append_eq, hid, ih, hmc, hk]

theorem chunkSections_eq (uuid : ℕ → String) (doc : Document) :
    ∀ (secs : List DocSection) (k : ℕ),
      chunkSections uuid doc secs k
        = (chunkSpecList uuid doc (sectionItemPairs secs) k,
           k + missingIdCount (sectionItemPairs secs)) := by
  intro secs
  induction secs with
  | nil => intro k; simp [chunkSections, sectionItemPairs, chunkSpecList, missingIdCount]
  | cons sec rest ih =>
      intro k
      have hmc : missingIdCount ((List.map (fun it => (sec, it)) sec.content)
            ++ (rest.flatMap fun s => List.map (fun it => (s, it)) s.content))
          = missingIdCount (List.map (fun it => (sec, it)) sec.content)
            + missingIdCount (rest.flatMap fun s => List.map (fun it => (s, it)) s.content) := by
        simp [missingIdCount, List.countP_append]
      simp only [chunkSections, chunkItems_eq, ih, sectionItemPairs, List.flatMap_cons,
        chunkSpecList_append, hmc, Nat.add_assoc]

theorem chunkSpecList_length (uuid : ℕ → String) (doc : Document) :
    ∀ (ps : List (DocSection × QAItem)) (k : ℕ),
      (chunkSpecList uuid doc ps k).length = ps.length := by
  intro ps
  induction ps with
  | nil => intro k; rfl
  | cons p rest ih => intro k; simp [chunkSpecList, ih]

theorem chunkSpecList_get (uuid : ℕ → String) (doc : Document) :
    ∀ (ps : List (DocSection × QAItem)) (k : ℕ) (j : ℕ) (hj : j < ps.length)
      (hc : j < (chunkSpecList uuid doc ps k).length),
      (chunkSpecList uuid doc ps k).get ⟨j, hc⟩
        = chunkOfItem uuid (k + missingIdCount (ps.take j)) doc
            (ps.get ⟨j, hj⟩).1 (ps.get ⟨j, hj⟩).2 := by
  intro ps
  induction ps with
  | nil => intro k j hj; simp at hj
  | cons p rest ih =>
      intro k j hj hc
      cases j with
      | zero => simp [chunkSpecList, missingIdCount]
      | succ j' =>
          have hj'' : j' < rest.length := by simpa using hj
          simp only [chunkSpecList, List.get_cons_succ]
          rw [ih _ j' hj'']
          cases hid : p.2.id with
          | some i =>
              have hmc : missingIdCount ((p :: rest).take (j' + 1))
                  = missingIdCount (rest.take j') := by
                simp [List.take_succ_cons, missingIdCount, List.countP_cons, hid]
              rw [hmc]
          | none =>
              have hmc : missingIdCount ((p :: rest).take (j' + 1))
                  = missingIdCount (rest.take j') + 1 := by
                simp [List.take_succ_cons, missingIdCount, List.countP_cons, hid]
              rw [hmc]
              have harith : k + 1 + missingIdCount (rest.take j')
                  = k + (missingIdCount (rest.take j') + 1) := by omega
              rw [← harith]

theorem missingIdCount_take_lt (ps : List (DocSection × QAItem)) (j j' : ℕ)
    (hj : j < ps.length) (hlt : j < j')
    (hnone : (ps.get ⟨j, hj⟩).2.id = none) :
    missingIdCount (ps.take j) < missingIdCount (ps.take j') := by
  have hgj : ps[j]? = some (ps.get ⟨j, hj⟩) := by
    rw [List.getElem?_eq_getElem hj, List.get_eq_getElem]
  have h1 : missingIdCount (ps.take (j + 1)) = missingIdCount (ps.take j) + 1 := by
    rw [missingIdCount, List.take_succ, hgj]
    simp only [Option.toList_some, List.countP_append, List.countP_cons, List.countP_nil,
      missingIdCount]
    simp [← List.get_eq_getElem, hnone]
  have h2 : missingIdCount (ps.take (j + 1)) ≤ missingIdCount (ps.take j') := by
    have hj2 : j' = (j + 1) + (j' - (j + 1)) := by omega
    rw [hj2]
    nth_rewrite 2 [List.take_add]
    simp only [missingIdCount, List.countP_append]
    omega
  omega

/-- C7: `chunk_document` yields exactly one chunk per question/answer item
across all sections, in order; each chunk carries the canonical text
`"Section: {title}\nQuestion: {q}\nAnswer: {a}"`, the item's fields, the
section and document provenance, and the item's `id` — or the next value of
the fresh-id supply when the `id` is absent, pairwise distinct for an
injective supply.  A document without a `sections` key yields `[]`. -/
theorem C7_chunk_document_one_chunk_per_item (uuid : ℕ → String) (doc : Document) :
    (doc.sections = none → chunk_document uuid doc = []) ∧
    (∀ secs, doc.sections = some secs →
      (chunk_document uuid doc).length = (sectionItemPairs secs).length ∧
      (∀ (j : ℕ) (hj : j < (sectionItemPairs secs).length)
          (hc : j < (chunk_document uuid doc).length),
        ((chunk_document uuid doc).get ⟨j, hc⟩).text
            = "Section: "
              ++ ((sectionItemPairs secs).get ⟨j, hj⟩).1.sectionTitle.getD "Untitled Section"
              ++ "\nQuestion: " ++ ((sectionItemPairs secs).get ⟨j, hj⟩).2.question
              ++ "\nAnswer: " ++ ((sectionItemPairs secs).get ⟨j, hj⟩).2.answer ∧
        ((chunk_document uuid doc).get ⟨j, hc⟩).question
            = ((sectionItemPairs secs).get ⟨j, hj⟩).2.question ∧
        ((chunk_document uuid doc).get ⟨j, hc⟩).answer
            = ((sectionItemPairs secs).get ⟨j, hj⟩).2.answer ∧
        ((chunk_document uuid doc).get ⟨j, hc⟩).keywords
            = ((sectionItemPairs secs).get ⟨j, hj⟩).2.keywords ∧
        ((chunk_document uuid doc).get ⟨j, hc⟩).section_id
            = ((sectionItemPairs secs).get ⟨j, hj⟩).1.sectionId.getD "unknown" ∧
        ((chunk_document uuid doc).get ⟨j, hc⟩).section_title
            = ((sectionItemPairs secs).get ⟨j, hj⟩).1.sectionTitle.getD "Untitled Section" ∧
        ((chunk_document uuid doc).get ⟨j, hc⟩).source_document = docSourceDocument doc ∧
        ((chunk_document uuid doc).get ⟨j, hc⟩).document_title = docTitle doc ∧
        (∀ i, ((sectionItemPairs secs).get ⟨j, hj⟩).2.id = some i →
          ((chunk_document uuid doc).get ⟨j, hc⟩).chunk_id = i) ∧
        (((sectionItemPairs secs).get ⟨j, hj⟩).2.id = none →
          ((chunk_document uuid doc).get ⟨j, hc⟩).chunk_id
            = uuid (missingIdCount ((sectionItemPairs secs).take j)))) ∧
      (Function.Injective uuid →
        ∀ (j j' : ℕ) (hj : j < (sectionItemPairs secs).length)
            (hj' : j' < (sectionItemPairs secs).length)
            (hc : j < (chunk_document uuid doc).length)
            (hc' : j' < (chunk_document uuid doc).length),
          j < j' →
          ((sectionItemPairs secs).get ⟨j, hj⟩).2.id = none →
          ((sectionItemPairs secs).get ⟨j', hj'⟩).2.id = none →
          ((chunk_document uuid doc).get ⟨j, hc⟩).chunk_id
            ≠ ((chunk_document uuid doc).get ⟨j', hc'⟩).chunk_id)) := by
  constructor
  · intro h
    unfold chunk_document
    rw [h]
  · intro secs hsecs
    have hcd : chunk_document uuid doc = chunkSpecList uuid doc (sectionItemPairs secs) 0 := by
      unfold chunk_document
      rw [hsecs]
      dsimp only []
      rw [chunkSections_eq]
    refine ⟨by rw [hcd, chunkSpecList_length], ?_, ?_⟩
    · intro j hj hc
      have hc2 : j < (chunkSpecList uuid doc (sectionItemPairs secs) 0).length := by
        rw [← hcd]; exact hc
      have hEq : (chunk_document uuid doc).get ⟨j, hc⟩
          = (chunkSpecList uuid doc (sectionItemPairs secs) 0).get ⟨j, hc2⟩ :=
        List.get_of_eq hcd ⟨j, hc⟩
      have hget := chunkSpecList_get uuid doc (sectionItemPairs secs) 0 j hj hc2
      rw [hEq, hget, Nat.zero_add]
      refine ⟨rfl, rfl, rfl, rfl, rfl, rfl, rfl, rfl, ?_, ?_⟩
      · intro i hi
        simp only [chunkOfItem]
        rw [hi]
      · intro hn
        simp only [chunkOfItem]
        rw [hn]
    · intro hinj j j' hj hj' hc hc' hlt hn hn'
      have hc2 : j < (chunkSpecList uuid doc (sectionItemPairs secs) 0).length := by
        rw [← hcd]; exact hc
      have hc2' : j' < (chunkSpecList uuid doc (sectionItemPairs secs) 0).length := by
        rw [← hcd]; exact hc'
      have hEq : (chunk_document uuid doc).get ⟨j, hc⟩
          = (chunkSpecList uuid doc (sectionItemPairs secs) 0).get ⟨j, hc2⟩ :=
        List.get_of_eq hcd ⟨j, hc⟩
      have hEq' : (chunk_document uuid doc).get ⟨j', hc'⟩
          = (chunkSpecList uuid doc (sectionItemPairs secs) 0).get ⟨j', hc2'⟩ :=
        List.get_of_eq hcd ⟨j', hc'⟩
      rw [hEq, chunkSpecList_get uuid doc _ 0 j hj hc2,
        hEq', chunkSpecList_get uuid doc _ 0 j' hj' hc2']
      simp only [chunkOfItem]
      rw [hn, hn']
      intro heq
      have hmc := missingIdCount_take_lt (sectionItemPairs secs) j j' hj hlt hn
      exact absurd (hinj heq) (by omega)
